import Mathlib

/-!
Verification of the `global-logrotate` core (cmd/global-logrotate/main.go):
the encryption subsystem, the credential resolver, the per-file rotation
engine, configuration parsing and the discovery filter, embedded shallowly.

Strings are modelled as lists of characters and byte slices as lists of
naturals; the filesystem is an association list from paths to contents.
External library primitives that are not part of this repository (PBKDF2,
AES-GCM, SHA-256, gzip) are modelled as ideal executable functions, each
marked in its doc comment; everything else is translated directly from the
Go source.
-/

namespace GLR

/-- Go `string`, modelled as a list of characters. -/
abbrev Str := List Char

/-- Go `[]byte`, modelled as a list of naturals. -/
abbrev Bytes := List Nat

/-! ## Constants (main.go lines 27-50) -/

def saltSize : Nat := 32

def nonceSize : Nat := 12

def gcmTagSize : Nat := 16

/-- `encryptMagic = []byte("GLRE")` — the bytes of `G`, `L`, `R`, `E`. -/
def encryptMagic : Bytes := [71, 76, 82, 69]

/-! ## Idealized cryptographic primitives

These are the library functions the Go code calls; they are not part of
this repository, so they are modelled as ideal executable functions. -/

/-- Number of Unicode code points; every `Char.toNat` is strictly below it. -/
def charBase : Nat := 1114112

/-- Injective numeric code of a string (base-`charBase` digits); used to make
the modelled authentication tag depend injectively on the password. -/
def encStr : Str → Nat
  | [] => 0
  | c :: s => 1 + c.toNat + charBase * encStr s

/-- A cheap digest of a byte list, used for the non-password components of
the modelled authentication tag. -/
def encN (l : Bytes) : Nat := l.foldl (fun a x => a + x + 1) 0

/-- The derived AES key: `deriveKey` in main.go returns
`pbkdf2.Key(password, salt, 100000, 32, sha256.New)`. -/
structure DerivedKey where
  password : Str
  salt : Bytes
deriving DecidableEq

/-- Modelled from the spec: PBKDF2 (golang.org/x/crypto/pbkdf2, not part of
this repository) is a deterministic salted key-derivation function; it is
modelled as the ideal KDF that keeps the password and salt distinguishable,
so that distinct passwords yield distinct keys. -/
def deriveKey (password : Str) (salt : Bytes) : DerivedKey := ⟨password, salt⟩

/-- Modelled from the spec: the 16-byte GCM authentication tag. The first four
entries digest the key, nonce and body (the password component injectively),
the rest pad the tag to its fixed 16-byte length. -/
def gcmTag (key : DerivedKey) (nonce body : Bytes) : Bytes :=
  [encStr key.password, encN key.salt, encN nonce, encN body] ++ List.replicate 12 0

/-- Modelled from the spec: `gcm.Seal(nil, nonce, plaintext, nil)` from
crypto/cipher (not part of this repository) — authenticated encryption whose
output is 16 bytes (the tag) longer than the plaintext. -/
def gcmSeal (key : DerivedKey) (nonce pt : Bytes) : Bytes := pt ++ gcmTag key nonce pt

/-- Modelled from the spec: `gcm.Open(nil, nonce, ciphertext, nil)` from
crypto/cipher (not part of this repository) — rejects inputs shorter than the
tag and any input whose recomputed tag differs from the stored one. -/
def gcmOpen (key : DerivedKey) (nonce ct : Bytes) : Option Bytes :=
  if ct.length < gcmTagSize then none
  else
    let body := ct.take (ct.length - gcmTagSize)
    let tag := ct.drop (ct.length - gcmTagSize)
    if tag = gcmTag key nonce body then some body else none

/-! ## Encryption subsystem (main.go lines 1077-1165) -/

/-- `encryptData(plaintext, password)` (main.go 1079-1117). The random salt and
nonce filled by `rand.Read` are taken as parameters; the envelope is
`MAGIC(4) || SALT(32) || NONCE(12) || CIPHERTEXT`. -/
def encryptData (plaintext : Bytes) (password : Str) (salt nonce : Bytes) : Bytes :=
  encryptMagic ++ salt ++ nonce ++ gcmSeal (deriveKey password salt) nonce plaintext

/-- The three error outcomes of `decryptData`: "encrypted data too short",
"invalid encrypted file format", and the single undifferentiated
"decryption failed - incorrect password or corrupted file". -/
inductive DecryptError
  | tooShort
  | invalidFormat
  | decryptionFailed
deriving DecidableEq

/-- `decryptData(data, password)` (main.go 1120-1165): length check against
`len(magic) + saltSize + nonceSize + 16`, magic check, then salt/nonce/ct
extraction at offsets 4, 36, 48 and an authenticated open. -/
def decryptData (data : Bytes) (password : Str) : Except DecryptError Bytes :=
  if data.length < encryptMagic.length + saltSize + nonceSize + 16 then
    Except.error DecryptError.tooShort
  else if data.take encryptMagic.length ≠ encryptMagic then
    Except.error DecryptError.invalidFormat
  else
    let salt := (data.drop encryptMagic.length).take saltSize
    let nonce := (data.drop (encryptMagic.length + saltSize)).take nonceSize
    let ct := data.drop (encryptMagic.length + saltSize + nonceSize)
    match gcmOpen (deriveKey password salt) nonce ct with
    | some pt => Except.ok pt
    | none => Except.error DecryptError.decryptionFailed

/-! ## Credential resolver (main.go lines 1167-1244 and 1308-1364)

The resolver functions are pure: the process-global `cachedPassword` is
threaded as an explicit argument and result, and the external sources the
code reads — the per-user credentials file content, the
`LOGROTATE_PASSWORD` environment variable and the interactive prompt —
are passed as parameters (empty string means "absent", matching
`readPasswordFromCredentials`/`os.Getenv` returning `""`; a `none` prompt
means `readPassword` returned an error). -/

/-- The subset of the Go `Config` struct the verified components read. -/
structure Config where
  dateSuffix : Str
  oldLogsDir : Str
  encrypt : Bool
  dryRun : Bool
  encryptPassword : Str
  encryptPassHash : Str
deriving DecidableEq

/-- The credential sources, in the order the resolver consults them. -/
inductive Source
  | cache
  | config
  | credFile
  | envVar
  | prompt
deriving DecidableEq

/-- Modelled from the spec: `hex.EncodeToString(sha256.Sum256(p))` (crypto
stdlib, not part of this repository), modelled as an ideal collision-free
digest; the code only ever compares it against the configured hash string. -/
def hashHex (s : Str) : Str := 'h' :: s

/-- `getEncryptionPassword(cfg)` (main.go 1167-1244). Returns the resolved
password (empty when resolution fails), the new value of `cachedPassword`,
and the list of sources consulted, in order. A credentials-file or
environment password is accepted when it is nonempty and either no hash is
configured or its digest matches; the prompt is consulted only when a hash
is configured. -/
def getEncryptionPassword (cache : Str) (cfg : Config) (cred env : Str) (pr : Option Str) :
    Str × Str × List Source :=
  if cache ≠ [] then (cache, cache, [Source.cache])
  else if cfg.encryptPassword ≠ [] then
    (cfg.encryptPassword, cfg.encryptPassword, [Source.cache, Source.config])
  else if cred ≠ [] ∧ (cfg.encryptPassHash = [] ∨ hashHex cred = cfg.encryptPassHash) then
    (cred, cred, [Source.cache, Source.config, Source.credFile])
  else if env ≠ [] ∧ (cfg.encryptPassHash = [] ∨ hashHex env = cfg.encryptPassHash) then
    (env, env, [Source.cache, Source.config, Source.credFile, Source.envVar])
  else if cfg.encryptPassHash ≠ [] then
    match pr with
    | none =>
      ([], cache, [Source.cache, Source.config, Source.credFile, Source.envVar, Source.prompt])
    | some p =>
      if hashHex p = cfg.encryptPassHash then
        (p, p, [Source.cache, Source.config, Source.credFile, Source.envVar, Source.prompt])
      else
        ([], cache, [Source.cache, Source.config, Source.credFile, Source.envVar, Source.prompt])
  else ([], cache, [Source.cache, Source.config, Source.credFile, Source.envVar])

/-- `getDecryptionPassword(cfg)` (main.go 1308-1364). Unlike the encryption
resolver it neither reads nor writes `cachedPassword`, and it always ends
at the prompt, whose answer is hash-verified only when a hash is
configured. Returns the resolved password and the consulted sources. -/
def getDecryptionPassword (cfg : Config) (cred env : Str) (pr : Option Str) :
    Str × List Source :=
  if cfg.encryptPassword ≠ [] then (cfg.encryptPassword, [Source.config])
  else if cred ≠ [] ∧ (cfg.encryptPassHash = [] ∨ hashHex cred = cfg.encryptPassHash) then
    (cred, [Source.config, Source.credFile])
  else if env ≠ [] ∧ (cfg.encryptPassHash = [] ∨ hashHex env = cfg.encryptPassHash) then
    (env, [Source.config, Source.credFile, Source.envVar])
  else
    match pr with
    | none => ([], [Source.config, Source.credFile, Source.envVar, Source.prompt])
    | some p =>
      if cfg.encryptPassHash ≠ [] ∧ hashHex p ≠ cfg.encryptPassHash then
        ([], [Source.config, Source.credFile, Source.envVar, Source.prompt])
      else (p, [Source.config, Source.credFile, Source.envVar, Source.prompt])

/-- First nonempty string in a list, or empty — the spec-side reading of
"the first available password from any source is accepted". -/
def firstNonempty : List Str → Str
  | [] => []
  | s :: rest => if s ≠ [] then s else firstNonempty rest

/-- Fixture: encryption enabled, no plaintext password and no hash
configured. -/
def cfgNoHash : Config :=
  { dateSuffix := [], oldLogsDir := [], encrypt := true, dryRun := false,
    encryptPassword := [], encryptPassHash := [] }

/-! ## Filesystem model

Go maps and the filesystem are modelled as association lists with a single
binding per key: `mset` replaces any previous binding, `mget` returns the
current one. -/

/-- Update-or-insert for an association list keyed by strings. -/
def mset {α : Type} (m : List (Str × α)) (k : Str) (v : α) : List (Str × α) :=
  (k, v) :: m.filter (fun e => !(decide (e.1 = k)))

/-- Lookup in an association list keyed by strings. -/
def mget {α : Type} (m : List (Str × α)) (k : Str) : Option α :=
  (m.find? (fun e => decide (e.1 = k))).map (fun e => e.2)

/-- The filesystem: a map from paths to file contents. A path that is
present models an existing file (`os.Stat` succeeds); file metadata other
than content is not modelled. -/
abbrev FS := List (Str × Bytes)

/-! ## Rotation engine (main.go lines 893-1046) -/

/-- `filepath.Base`: the part of the path after the last separator. -/
def baseName (p : Str) : Str := (p.reverse.takeWhile (fun c => c != '/')).reverse

/-- `filepath.Dir`: the part of the path before the last separator. -/
def dirName (p : Str) : Str := ((p.reverse.dropWhile (fun c => c != '/')).drop 1).reverse

/-- `filepath.Join` on two components. -/
def pjoin (a b : Str) : Str := a ++ '/' :: b

/-- Modelled from the spec: gzip compression (compress/gzip, not part of
this repository) — an in-memory coding that prepends the gzip header
bytes; its internals are irrelevant to the rotation claims. -/
def gzipC (data : Bytes) : Bytes := 31 :: 139 :: 8 :: data

/-- Filesystem effects performed by one `rotateLogFile` execution, in
order: a successful full read of the source, a successful write of the
archive, a successful truncation of the source. -/
inductive Event
  | evRead (p : Str)
  | evWrite (p : Str) (b : Bytes)
  | evTruncate (p : Str)
deriving DecidableEq

/-- The per-file outcomes of `rotateLogFile`, one per `return` in the Go
source (ownership/permission restoration is best-effort and not an
outcome). -/
inductive Outcome
  | skippedMissing
  | skippedEmpty
  | alreadyRotated
  | wouldRotate
  | errMkdir
  | errRead
  | errNoPassword
  | errWrite
  | errTruncate
  | rotated
deriving DecidableEq

/-- Failure injection for the fallible filesystem calls of one execution:
`os.MkdirAll`, `os.ReadFile`, `os.WriteFile`, `os.Truncate`. -/
structure FailSpec where
  mkdirFail : Bool
  readFail : Bool
  writeFail : Bool
  truncateFail : Bool
deriving DecidableEq

/-- Result of one `rotateLogFile` execution: the filesystem, the new
`cachedPassword`, the per-file outcome, and the performed effects. -/
structure RotateResult where
  fs : FS
  cache : Str
  outcome : Outcome
  events : List Event
deriving DecidableEq

/-- The `ArchiveTarget` path computed in main.go 916-935:
`<backupRoot>/<today>/<name>.<dateSuffix>.gz[.enc]` where `backupRoot` is
the configured old-logs directory or `<dir>/old_logs`. -/
def archivePath (cfg : Config) (today : Str) (path : Str) : Str :=
  let logDir := dirName path
  let logName := baseName path
  let rotatedBasename := logName ++ '.' :: cfg.dateSuffix
  let backupRoot := if cfg.oldLogsDir ≠ [] then cfg.oldLogsDir else pjoin logDir "old_logs".data
  let backupDir := pjoin backupRoot today
  pjoin backupDir (rotatedBasename ++ (if cfg.encrypt then ".gz.enc".data else ".gz".data))

/-- The write-then-truncate tail of `rotateLogFile` (main.go 1001-1013):
write the archive, then truncate the source in place; a truncate failure
leaves the already-written archive behind. -/
def finishRotate (fs : FS) (cache : Str) (path archivedFile : Str) (finalData : Bytes)
    (fail : FailSpec) : RotateResult :=
  if fail.writeFail then ⟨fs, cache, Outcome.errWrite, [Event.evRead path]⟩
  else
    let fs1 := mset fs archivedFile finalData
    if fail.truncateFail then
      ⟨fs1, cache, Outcome.errTruncate, [Event.evRead path, Event.evWrite archivedFile finalData]⟩
    else
      ⟨mset fs1 path [], cache, Outcome.rotated,
        [Event.evRead path, Event.evWrite archivedFile finalData, Event.evTruncate path]⟩

/-- `rotateLogFile(logFile, cfg)` (main.go 893-1046) as a state transition:
stat, empty check, already-rotated check, dry-run check, mkdir, read,
compress, optional password resolution and encryption, then write and
truncate. `today` is `time.Now().Format("20060102")`, and the salt and
nonce are the randomness an encryption would draw. -/
def rotateLogFile (cfg : Config) (today : Str) (path : Str) (cache cred env : Str)
    (pr : Option Str) (fail : FailSpec) (salt nonce : Bytes) (fs : FS) : RotateResult :=
  match mget fs path with
  | none => ⟨fs, cache, Outcome.skippedMissing, []⟩
  | some data =>
    if data = [] then ⟨fs, cache, Outcome.skippedEmpty, []⟩
    else
      let archivedFile := archivePath cfg today path
      if (mget fs archivedFile).isSome then ⟨fs, cache, Outcome.alreadyRotated, []⟩
      else if cfg.dryRun then ⟨fs, cache, Outcome.wouldRotate, []⟩
      else if fail.mkdirFail then ⟨fs, cache, Outcome.errMkdir, []⟩
      else if fail.readFail then ⟨fs, cache, Outcome.errRead, []⟩
      else
        let compressedData := gzipC data
        if cfg.encrypt then
          let q := getEncryptionPassword cache cfg cred env pr
          if q.1 = [] then ⟨fs, q.2.1, Outcome.errNoPassword, [Event.evRead path]⟩
          else
            finishRotate fs q.2.1 path archivedFile
              (encryptData compressedData q.1 salt nonce) fail
        else finishRotate fs cache path archivedFile compressedData fail

/-- The fatal pre-run validation in `main` (main.go 212-225): with
encryption requested, exit non-zero before discovery only when neither a
plaintext password nor a password hash is configured. -/
def encryptPrecheckFatal (cfg : Config) : Bool :=
  cfg.encrypt && cfg.encryptPassword.isEmpty && cfg.encryptPassHash.isEmpty

/-- Fixture: a plain (unencrypted) rotation config. -/
def cfgPlain : Config :=
  { dateSuffix := "s".data, oldLogsDir := [], encrypt := false, dryRun := false,
    encryptPassword := [], encryptPassHash := [] }

/-- Fixture: encryption enabled with only a hash configured, which no
source can match. -/
def cfgHashOnly : Config :=
  { dateSuffix := "s".data, oldLogsDir := [], encrypt := true, dryRun := false,
    encryptPassword := [], encryptPassHash := "H".data }

/-- Fixture: a candidate log file path. -/
def path0 : Str := "/l/a.log".data

/-- Fixture: a filesystem holding one nonempty log file. -/
def fs0 : FS := [(path0, [1])]

/-- Fixture: no injected filesystem failures. -/
def failNone : FailSpec := ⟨false, false, false, false⟩

/-- Fixture: only the truncate call fails. -/
def failTrunc : FailSpec := ⟨false, false, false, true⟩

/-! ## Configuration parsing (main.go lines 578-615) -/

/-- Whitespace as trimmed by `strings.TrimSpace` (the code points that occur
in configuration files). -/
def isSp (c : Char) : Bool := c == ' ' || c == '\t' || c == '\n' || c == '\r'

/-- `strings.TrimSpace`. -/
def trim (s : Str) : Str := ((s.dropWhile isSp).reverse.dropWhile isSp).reverse

/-- The cutset of `strings.Trim(value, "\"'")`. -/
def isQuote (c : Char) : Bool := c == '"' || c == '\''

/-- `strings.Trim(s, "\"'")`: removes ALL leading and trailing quote
characters, not one layer. -/
def trimQuotes (s : Str) : Str := ((s.dropWhile isQuote).reverse.dropWhile isQuote).reverse

/-- Split at the first `=`, accumulating the part before it. -/
def findEq (acc : Str) : Str → Option (Str × Str)
  | [] => none
  | c :: rest => if c = '=' then some (acc, rest) else findEq (acc ++ [c]) rest

/-- `strings.Index(line, "=")` with the `idx > 0` guard of the Go loop: an
`=` at position zero means the line is skipped. -/
def splitEq : Str → Option (Str × Str)
  | [] => none
  | c :: rest => if c = '=' then none else findEq [c] rest

/-- One iteration of the scanner loop in `loadConfigFile` (main.go 603-614):
trim, skip blank and `#`/`;` comment lines, split at the first `=` (not at
position zero), trim the key and the value, and strip all surrounding
quote characters from the value. `readPasswordFromCredentials`
(main.go 399-413) parses lines identically. -/
def parseConfigLine (raw : Str) : Option (Str × Str) :=
  let line := trim raw
  if line = [] then none
  else if line.head? = some '#' ∨ line.head? = some ';' then none
  else
    match splitEq line with
    | none => none
    | some (k, v) => some (trim k, trimQuotes (trim v))

/-- The scanner loop of `loadConfigFile` over the lines of one file,
updating the shared config map. -/
def loadConfigLines : List Str → List (Str × Str) → List (Str × Str)
  | [], m => m
  | l :: ls, m =>
    loadConfigLines ls
      (match parseConfigLine l with
       | none => m
       | some (k, v) => mset m k v)

/-- `loadConfigFiles` (main.go 578-593): the main file first, then the
drop-in files in sorted order (the sorted file list is the `dropins`
argument), each read into the same map so later files override earlier
keys. -/
def loadConfigFiles (mainLines : List Str) (dropins : List (List Str)) : List (Str × Str) :=
  dropins.foldl (fun m f => loadConfigLines f m) (loadConfigLines mainLines [])

/-- The spec-side semantics of layered `KEY = value` files: the last
definition of a key across the concatenated files wins. -/
def lastDef : List Str → Str → Option Str
  | [], _ => none
  | l :: ls, k =>
    match lastDef ls k with
    | some v => some v
    | none =>
      match parseConfigLine l with
      | some (k', v) => if k' = k then some v else none
      | none => none

/-! ## Discovery and filter (main.go lines 786-864) -/

/-- Modelled from the spec: `path/filepath.Match` (stdlib, not part of this
repository) — glob semantics where `*` matches any run of non-separator
characters and `?` one non-separator character; character classes are not
modelled. Fuel-based so that it evaluates; the fuel is sufficient since
every step shrinks the pattern or the name. -/
def globMatchF : Nat → Str → Str → Bool
  | 0, _, _ => false
  | fuel + 1, p, n =>
    match p with
    | [] => n.isEmpty
    | c :: ps =>
      if c = '*' then
        globMatchF fuel ps n ||
          (match n with
           | [] => false
           | d :: ns => decide (d ≠ '/') && globMatchF fuel (c :: ps) ns)
      else
        match n with
        | [] => false
        | d :: ns =>
          if c = '?' then decide (d ≠ '/') && globMatchF fuel ps ns
          else decide (d = c) && globMatchF fuel ps ns

/-- Glob match with enough fuel for the whole pattern and name. -/
def globMatch (p n : Str) : Bool := globMatchF (p.length + n.length + 1) p n

/-- The exclusion test of `findLogFiles` (main.go 833-842): a file is
excluded when any pattern matches its full path or its base name. -/
def excludedBy (excludePatterns : List Str) (path : Str) : Bool :=
  excludePatterns.any (fun ep => globMatch ep path || globMatch ep (baseName path))

/-- Insertion step of the ascending-by-size sort. -/
def insertBySize (e : Str × Nat) : List (Str × Nat) → List (Str × Nat)
  | [] => [e]
  | f :: fs => if e.2 < f.2 then e :: f :: fs else f :: insertBySize e fs

/-- `sort.Slice(files, ...)` by ascending size (main.go 859-861); the Go
sort is unstable, and only the sortedness and membership matter. -/
def sortBySize (l : List (Str × Nat)) : List (Str × Nat) := l.foldr insertBySize []

/-- `findLogFiles(logDir, pattern, excludePatterns)` (main.go 814-864).
`entries` is the list of files (with sizes) that `filepath.WalkDir`
enumerates under the root — directories and erroring entries already
omitted, since the walk callback skips them. A file is kept when its base
name matches the pattern and no exclusion pattern matches its full path or
base name; the result is sorted by ascending size. -/
def findLogFiles (pattern : Str) (excludePatterns : List Str)
    (entries : List (Str × Nat)) : List (Str × Nat) :=
  sortBySize (entries.filter
    (fun e => globMatch pattern (baseName e.1) && !(excludedBy excludePatterns e.1)))

end GLR

namespace GLR

/-! ## Helper lemmas -/

theorem encStr_inj : ∀ {s t : Str}, encStr s = encStr t → s = t := by
  intro s
  induction s with
  | nil =>
    intro t h
    cases t with
    | nil => rfl
    | cons c t =>
      simp only [encStr] at h
      omega
  | cons c s ih =>
    intro t h
    cases t with
    | nil =>
      simp only [encStr] at h
      omega
    | cons d t =>
      simp only [encStr] at h
      have hc : c.toNat < charBase := by
        show c.val.toNat < 1114112
        rcases c.valid with h' | ⟨_, h'⟩ <;> omega
      have hd : d.toNat < charBase := by
        show d.val.toNat < 1114112
        rcases d.valid with h' | ⟨_, h'⟩ <;> omega
      have hB : charBase = 1114112 := rfl
      rw [hB] at h hc hd
      have hceq : c.toNat = d.toNat := by omega
      have hrec : encStr s = encStr t := by omega
      have : c = d := Char.eq_of_val_eq (UInt32.toNat.inj hceq)
      rw [this, ih hrec]

theorem gcmTag_length (key : DerivedKey) (nonce body : Bytes) :
    (gcmTag key nonce body).length = gcmTagSize := by
  simp [gcmTag, gcmTagSize]

theorem gcmSeal_length (key : DerivedKey) (nonce pt : Bytes) :
    (gcmSeal key nonce pt).length = pt.length + gcmTagSize := by
  simp [gcmSeal, gcmTag, gcmTagSize]

theorem gcmOpen_gcmSeal (key : DerivedKey) (nonce pt : Bytes) :
    gcmOpen key nonce (gcmSeal key nonce pt) = some pt := by
  have hlen := gcmSeal_length key nonce pt
  have h1 : ¬ (gcmSeal key nonce pt).length < gcmTagSize := by omega
  have hsub : (gcmSeal key nonce pt).length - gcmTagSize = pt.length := by omega
  have htake : (gcmSeal key nonce pt).take ((gcmSeal key nonce pt).length - gcmTagSize) = pt := by
    rw [hsub]
    exact List.take_left pt _
  have hdrop : (gcmSeal key nonce pt).drop ((gcmSeal key nonce pt).length - gcmTagSize) =
      gcmTag key nonce pt := by
    rw [hsub]
    exact List.drop_left pt _
  simp only [gcmOpen, if_neg h1, htake, hdrop]
  simp

theorem gcmOpen_gcmSeal_wrong_password (pw pw' : Str) (salt nonce pt : Bytes)
    (h : pw' ≠ pw) :
    gcmOpen (deriveKey pw' salt) nonce (gcmSeal (deriveKey pw salt) nonce pt) = none := by
  have hlen := gcmSeal_length (deriveKey pw salt) nonce pt
  have h1 : ¬ (gcmSeal (deriveKey pw salt) nonce pt).length < gcmTagSize := by omega
  have hsub : (gcmSeal (deriveKey pw salt) nonce pt).length - gcmTagSize = pt.length := by omega
  have htake : (gcmSeal (deriveKey pw salt) nonce pt).take
      ((gcmSeal (deriveKey pw salt) nonce pt).length - gcmTagSize) = pt := by
    rw [hsub]
    exact List.take_left pt _
  have hdrop : (gcmSeal (deriveKey pw salt) nonce pt).drop
      ((gcmSeal (deriveKey pw salt) nonce pt).length - gcmTagSize) =
      gcmTag (deriveKey pw salt) nonce pt := by
    rw [hsub]
    exact List.drop_left pt _
  have hne : gcmTag (deriveKey pw salt) nonce pt ≠ gcmTag (deriveKey pw' salt) nonce pt := by
    intro hcontra
    simp only [gcmTag, deriveKey, List.cons_append, List.cons.injEq] at hcontra
    exact h (encStr_inj hcontra.1).symm
  simp only [gcmOpen, if_neg h1, htake, hdrop, if_neg hne]

theorem decryptData_encryptData_reduces (pt : Bytes) (pw q : Str) (salt nonce : Bytes)
    (hs : salt.length = saltSize) (hn : nonce.length = nonceSize) :
    decryptData (encryptData pt pw salt nonce) q =
      match gcmOpen (deriveKey q salt) nonce (gcmSeal (deriveKey pw salt) nonce pt) with
      | some b => Except.ok b
      | none => Except.error DecryptError.decryptionFailed := by
  have hct := gcmSeal_length (deriveKey pw salt) nonce pt
  have henc : encryptData pt pw salt nonce =
      encryptMagic ++ (salt ++ (nonce ++ gcmSeal (deriveKey pw salt) nonce pt)) := by
    simp only [encryptData, List.append_assoc]
  have e1 : encryptMagic.length = 4 := rfl
  have e2 : saltSize = 32 := rfl
  have e3 : nonceSize = 12 := rfl
  have e4 : gcmTagSize = 16 := rfl
  rw [e4] at hct
  have h5 : salt.length = 32 := by rw [hs, e2]
  have h6 : nonce.length = 12 := by rw [hn, e3]
  have hdlen : (encryptData pt pw salt nonce).length =
      4 + (salt.length + (nonce.length + (gcmSeal (deriveKey pw salt) nonce pt).length)) := by
    rw [henc]
    simp only [List.length_append]
    rw [e1]
  have hshort : ¬ (encryptData pt pw salt nonce).length <
      encryptMagic.length + saltSize + nonceSize + 16 := by
    rw [e1, e2, e3]
    omega
  have hmagic : (encryptData pt pw salt nonce).take encryptMagic.length = encryptMagic := by
    rw [henc]
    exact List.take_left encryptMagic _
  have hsalt : ((encryptData pt pw salt nonce).drop encryptMagic.length).take saltSize = salt := by
    rw [henc, List.drop_left encryptMagic (salt ++ (nonce ++ gcmSeal (deriveKey pw salt) nonce pt))]
    exact List.take_left' hs
  have hnonce : ((encryptData pt pw salt nonce).drop (encryptMagic.length + saltSize)).take
      nonceSize = nonce := by
    have hassoc : encryptData pt pw salt nonce =
        (encryptMagic ++ salt) ++ (nonce ++ gcmSeal (deriveKey pw salt) nonce pt) := by
      rw [henc, List.append_assoc]
    have hlen12 : (encryptMagic ++ salt).length = encryptMagic.length + saltSize := by
      simp [hs]
    rw [hassoc, ← hlen12, List.drop_left]
    exact List.take_left' hn
  have hctext : (encryptData pt pw salt nonce).drop (encryptMagic.length + saltSize + nonceSize) =
      gcmSeal (deriveKey pw salt) nonce pt := by
    have hassoc : encryptData pt pw salt nonce =
        ((encryptMagic ++ salt) ++ nonce) ++ gcmSeal (deriveKey pw salt) nonce pt := by
      rw [henc, List.append_assoc, List.append_assoc]
    have hlen123 : ((encryptMagic ++ salt) ++ nonce).length =
        encryptMagic.length + saltSize + nonceSize := by
      simp [hs, hn, Nat.add_assoc]
    rw [hassoc, ← hlen123, List.drop_left]
  simp only [decryptData, if_neg hshort, hmagic, hsalt, hnonce, hctext]
  simp

/-- C1: for every plaintext and password (and fresh salt and nonce of the
sizes `rand.Read` produces), decrypting the envelope produced by
`encryptData` with the same password returns exactly the plaintext, and
decrypting it with any different password returns the undifferentiated
decryption-failure error and no plaintext. -/
theorem encryptData_decryptData_roundtrip (pt : Bytes) (pw : Str) (salt nonce : Bytes)
    (hs : salt.length = saltSize) (hn : nonce.length = nonceSize) :
    decryptData (encryptData pt pw salt nonce) pw = Except.ok pt ∧
    ∀ pw', pw' ≠ pw →
      decryptData (encryptData pt pw salt nonce) pw' =
        Except.error DecryptError.decryptionFailed := by
  constructor
  · rw [decryptData_encryptData_reduces pt pw pw salt nonce hs hn, gcmOpen_gcmSeal]
  · intro pw' hne
    rw [decryptData_encryptData_reduces pt pw pw' salt nonce hs hn,
      gcmOpen_gcmSeal_wrong_password pw pw' salt nonce pt hne]

/-- C1 witness: the round-trip and the wrong-password failure at a concrete
plaintext, password and randomness. -/
theorem encryptData_decryptData_roundtrip_witness :
    decryptData (encryptData [7] ['a'] (List.replicate 32 0) (List.replicate 12 0)) ['a'] =
      Except.ok [7] ∧
    decryptData (encryptData [7] ['a'] (List.replicate 32 0) (List.replicate 12 0)) ['b'] =
      Except.error DecryptError.decryptionFailed := by
  have h := encryptData_decryptData_roundtrip [7] ['a'] (List.replicate 32 0)
    (List.replicate 12 0) (by simp [saltSize]) (by simp [nonceSize])
  exact ⟨h.1, h.2 ['b'] (by decide)⟩

/-- C5: `decryptData` returns an error and no plaintext whenever the input is
shorter than `4+32+12+16` bytes or its first 4 bytes differ from the magic
tag, and every authentication failure — wrong password or corrupted
ciphertext alike — yields the one undifferentiated decryption-failure
outcome (`DecryptError.decryptionFailed` is the only error the
authentication branch can produce, so the two causes are not
distinguished). -/
theorem decryptData_rejects_malformed (data : Bytes) (pw : Str) :
    (data.length < encryptMagic.length + saltSize + nonceSize + 16 →
      decryptData data pw = Except.error DecryptError.tooShort) ∧
    (¬ data.length < encryptMagic.length + saltSize + nonceSize + 16 →
      data.take encryptMagic.length ≠ encryptMagic →
      decryptData data pw = Except.error DecryptError.invalidFormat) ∧
    (¬ data.length < encryptMagic.length + saltSize + nonceSize + 16 →
      data.take encryptMagic.length = encryptMagic →
      gcmOpen (deriveKey pw ((data.drop encryptMagic.length).take saltSize))
        ((data.drop (encryptMagic.length + saltSize)).take nonceSize)
        (data.drop (encryptMagic.length + saltSize + nonceSize)) = none →
      decryptData data pw = Except.error DecryptError.decryptionFailed) := by
  refine ⟨fun h1 => ?_, fun h1 h2 => ?_, fun h1 h2 h3 => ?_⟩
  · simp only [decryptData, if_pos h1]
  · simp only [decryptData, if_neg h1, if_pos h2]
  · simp only [decryptData, if_neg h1]
    rw [if_neg (by simp [h2])]
    simp only [h3]

/-- C5 witness: a too-short input, a wrong-magic input and an
authentication failure, each evaluated concretely. -/
theorem decryptData_rejects_malformed_witness :
    decryptData [0] [] = Except.error DecryptError.tooShort ∧
    decryptData (List.replicate 64 5) [] = Except.error DecryptError.invalidFormat ∧
    decryptData (encryptMagic ++ List.replicate 60 0) ['a'] =
      Except.error DecryptError.decryptionFailed := by
  refine ⟨(decryptData_rejects_malformed [0] []).1 (by decide),
    (decryptData_rejects_malformed (List.replicate 64 5) []).2.1 (by decide) (by decide),
    (decryptData_rejects_malformed (encryptMagic ++ List.replicate 60 0) ['a']).2.2
      (by decide) (by decide) (by decide)⟩

/-- C3 counterexample: with no hash configured and the config password,
credentials file and environment variable all absent, the encryption-path
resolver returns no password and never consults the interactive prompt,
even though the prompt would have supplied one — contradicting the claimed
fixed order ending at the prompt with the first obtained password accepted. -/
theorem encryption_resolver_skips_prompt_cx :
    (getEncryptionPassword [] cfgNoHash [] [] (some ['x'])).1 = [] ∧
    Source.prompt ∉ (getEncryptionPassword [] cfgNoHash [] [] (some ['x'])).2.2 := by
  decide

/-- C3 amended: both resolvers try their sources in fixed order stopping at
the first success, and with a configured hash a credentials-file or
environment password that does not hash to it is skipped, resolution
proceeding to the next source and ending at the interactive prompt; with
no hash configured the first password from the cache, the config, the
credentials file or the environment is accepted without verification, but
only the read-path resolver additionally consults the prompt — the
encryption resolver never prompts when no hash is configured. -/
theorem password_precedence_amended (cfg : Config) (cred env : Str) (pr : Option Str) :
    (cfg.encryptPassHash ≠ [] → hashHex cred ≠ cfg.encryptPassHash →
      getEncryptionPassword [] cfg cred env pr = getEncryptionPassword [] cfg [] env pr ∧
      getDecryptionPassword cfg cred env pr = getDecryptionPassword cfg [] env pr) ∧
    (cfg.encryptPassHash ≠ [] → hashHex env ≠ cfg.encryptPassHash →
      getEncryptionPassword [] cfg cred env pr = getEncryptionPassword [] cfg cred [] pr ∧
      getDecryptionPassword cfg cred env pr = getDecryptionPassword cfg cred [] pr) ∧
    (cfg.encryptPassHash ≠ [] → cfg.encryptPassword = [] →
      hashHex cred ≠ cfg.encryptPassHash → hashHex env ≠ cfg.encryptPassHash →
      Source.prompt ∈ (getEncryptionPassword [] cfg cred env pr).2.2 ∧
      Source.prompt ∈ (getDecryptionPassword cfg cred env pr).2) ∧
    (cfg.encryptPassHash = [] →
      (getEncryptionPassword [] cfg cred env pr).1 =
        firstNonempty [cfg.encryptPassword, cred, env] ∧
      Source.prompt ∉ (getEncryptionPassword [] cfg cred env pr).2.2 ∧
      (getDecryptionPassword cfg cred env pr).1 =
        firstNonempty [cfg.encryptPassword, cred, env, pr.getD []]) := by
  refine ⟨fun h hm => ?_, fun h hm => ?_, fun h hpw hmc hme => ?_, fun hno => ?_⟩
  · have hc : ¬ (cred ≠ [] ∧ (cfg.encryptPassHash = [] ∨ hashHex cred = cfg.encryptPassHash)) := by
      rintro ⟨-, h2 | h2⟩
      · exact h h2
      · exact hm h2
    constructor
    · simp only [getEncryptionPassword, if_neg hc]
      simp
    · simp only [getDecryptionPassword, if_neg hc]
      simp
  · have he : ¬ (env ≠ [] ∧ (cfg.encryptPassHash = [] ∨ hashHex env = cfg.encryptPassHash)) := by
      rintro ⟨-, h2 | h2⟩
      · exact h h2
      · exact hm h2
    constructor
    · simp only [getEncryptionPassword, if_neg he]
      simp
    · simp only [getDecryptionPassword, if_neg he]
      simp
  · have hc : ¬ (cred ≠ [] ∧ (cfg.encryptPassHash = [] ∨ hashHex cred = cfg.encryptPassHash)) := by
      rintro ⟨-, h2 | h2⟩
      · exact h h2
      · exact hmc h2
    have he : ¬ (env ≠ [] ∧ (cfg.encryptPassHash = [] ∨ hashHex env = cfg.encryptPassHash)) := by
      rintro ⟨-, h2 | h2⟩
      · exact h h2
      · exact hme h2
    cases pr with
    | none =>
      simp [getEncryptionPassword, getDecryptionPassword, hc, he, hpw, h]
      constructor <;> (split_ifs <;> simp_all)
    | some p =>
      constructor
      · simp only [getEncryptionPassword, if_neg hc, if_neg he]
        simp [hpw, h]
        split_ifs <;> simp
      · simp only [getDecryptionPassword, if_neg hc, if_neg he]
        simp [hpw]
        split_ifs <;> simp
  · refine ⟨?_, ?_, ?_⟩
    · simp only [getEncryptionPassword, firstNonempty, hno]
      split_ifs <;> simp_all
    · simp only [getEncryptionPassword, hno]
      split_ifs <;> simp_all
    · cases pr with
      | none =>
        simp only [getDecryptionPassword, firstNonempty, hno, Option.getD]
        split_ifs <;> simp_all
      | some p =>
        simp only [getDecryptionPassword, firstNonempty, hno, Option.getD]
        split_ifs <;> simp_all

/-- C3 amended witness: with a configured hash, a mismatching environment
password is skipped and resolution ends at the prompt. -/
theorem password_precedence_amended_witness :
    Source.prompt ∈ (getEncryptionPassword []
      { dateSuffix := [], oldLogsDir := [], encrypt := true, dryRun := false,
        encryptPassword := [], encryptPassHash := ['H'] } [] ['w'] (some ['x'])).2.2 := by
  have h := password_precedence_amended
    { dateSuffix := [], oldLogsDir := [], encrypt := true, dryRun := false,
      encryptPassword := [], encryptPassHash := ['H'] } [] ['w'] (some ['x'])
  exact (h.2.2.1 (by decide) (by decide) (by decide) (by decide)).1

/-- C6 counterexample: the encryption-path resolver resolves and memoizes
the credentials-file password, but a subsequent read-path resolution does
not return the memoized value: it consults the credentials file again and
returns whatever that source currently yields. -/
theorem read_path_resolver_not_memoized_cx :
    (getEncryptionPassword [] cfgNoHash ['a'] [] none).1 = ['a'] ∧
    (getEncryptionPassword [] cfgNoHash ['a'] [] none).2.1 = ['a'] ∧
    Source.credFile ∈ (getDecryptionPassword cfgNoHash ['a'] [] none).2 ∧
    (getDecryptionPassword cfgNoHash ['b'] [] none).1 ≠ ['a'] := by
  decide

/-- C6 amended: the encryption-path resolver memoizes — with a nonempty
cached password every call returns it after consulting only the cache, and
whenever a call resolves a nonempty password it stores exactly that
password in the cache; the read-path resolver performs no memoization. -/
theorem password_memoization_amended (c : Str) (cfg : Config) (cred env : Str)
    (pr : Option Str) :
    (c ≠ [] → getEncryptionPassword c cfg cred env pr = (c, c, [Source.cache])) ∧
    ((getEncryptionPassword [] cfg cred env pr).1 ≠ [] →
      (getEncryptionPassword [] cfg cred env pr).2.1 =
        (getEncryptionPassword [] cfg cred env pr).1) := by
  constructor
  · intro h
    simp [getEncryptionPassword, h]
  · intro h
    simp only [getEncryptionPassword] at *
    split_ifs at * <;> try rfl
    all_goals cases pr <;> (simp_all; try (split_ifs at * <;> simp_all))

/-- C6 amended witness: concrete memoization — a cached password is
returned as-is, and a freshly resolved credentials password is cached. -/
theorem password_memoization_amended_witness :
    getEncryptionPassword ['a'] cfgNoHash ['b'] [] none = (['a'], ['a'], [Source.cache]) ∧
    (getEncryptionPassword [] cfgNoHash ['b'] [] none).2.1 =
      (getEncryptionPassword [] cfgNoHash ['b'] [] none).1 := by
  have h1 := (password_memoization_amended ['a'] cfgNoHash ['b'] [] none).1 (by decide)
  have h2 := (password_memoization_amended [] cfgNoHash ['b'] [] none).2 (by decide)
  exact ⟨h1, h2⟩

theorem find?_filter_ne {α : Type} (m : List (Str × α)) (k k' : Str) (h : k' ≠ k) :
    (m.filter (fun e => !(decide (e.1 = k)))).find? (fun e => decide (e.1 = k')) =
      m.find? (fun e => decide (e.1 = k')) := by
  induction m with
  | nil => rfl
  | cons e m ih =>
    by_cases hek : e.1 = k
    · have hpred : e.1 ≠ k' := by
        rw [hek]
        exact Ne.symm h
      simp [List.filter_cons, List.find?, hek, hpred, ih, Ne.symm h]
    · by_cases hek' : e.1 = k'
      · simp [List.filter_cons, List.find?, hek, hek', h]
      · simp [List.filter_cons, List.find?, hek, hek', ih, h]

theorem mget_mset_self {α : Type} (m : List (Str × α)) (k : Str) (v : α) :
    mget (mset m k v) k = some v := by
  simp [mget, mset, List.find?]

theorem mget_mset_ne {α : Type} (m : List (Str × α)) (k k' : Str) (v : α) (h : k' ≠ k) :
    mget (mset m k v) k' = mget m k' := by
  simp only [mget, mset, List.find?]
  have : (decide (k = k')) = false := by
    simp [Ne.symm h]
  rw [this]
  rw [find?_filter_ne m k k' h]

theorem rotate_shape (cfg : Config) (today : Str) (path : Str) (cache cred env : Str)
    (pr : Option Str) (fail : FailSpec) (salt nonce : Bytes) (fs : FS) :
    ((rotateLogFile cfg today path cache cred env pr fail salt nonce fs).fs = fs ∧
      ((rotateLogFile cfg today path cache cred env pr fail salt nonce fs).events = [] ∨
       (rotateLogFile cfg today path cache cred env pr fail salt nonce fs).events =
         [Event.evRead path]) ∧
      (rotateLogFile cfg today path cache cred env pr fail salt nonce fs).outcome ≠
        Outcome.rotated ∧
      (rotateLogFile cfg today path cache cred env pr fail salt nonce fs).outcome ≠
        Outcome.errTruncate) ∨
    (∃ d fin c, mget fs path = some d ∧ d ≠ [] ∧
      mget fs (archivePath cfg today path) = none ∧
      (rotateLogFile cfg today path cache cred env pr fail salt nonce fs =
        ⟨mset fs (archivePath cfg today path) fin, c, Outcome.errTruncate,
         [Event.evRead path, Event.evWrite (archivePath cfg today path) fin]⟩ ∨
       rotateLogFile cfg today path cache cred env pr fail salt nonce fs =
        ⟨mset (mset fs (archivePath cfg today path) fin) path [], c, Outcome.rotated,
         [Event.evRead path, Event.evWrite (archivePath cfg today path) fin,
          Event.evTruncate path]⟩)) := by
  rcases hd : mget fs path with - | data <;>
    simp only [rotateLogFile, finishRotate, hd]
  · exact Or.inl (by simp)
  by_cases h1 : data = []
  · rw [if_pos h1]
    exact Or.inl (by simp)
  rw [if_neg h1]
  by_cases h2 : (mget fs (archivePath cfg today path)).isSome = true
  · rw [if_pos h2]
    exact Or.inl (by simp)
  rw [if_neg h2]
  have h2' : mget fs (archivePath cfg today path) = none := by
    simpa using h2
  by_cases h3 : cfg.dryRun = true
  · rw [if_pos h3]
    exact Or.inl (by simp)
  rw [if_neg h3]
  by_cases h4 : fail.mkdirFail = true
  · rw [if_pos h4]
    exact Or.inl (by simp)
  rw [if_neg h4]
  by_cases h5 : fail.readFail = true
  · rw [if_pos h5]
    exact Or.inl (by simp)
  rw [if_neg h5]
  by_cases h6 : cfg.encrypt = true
  · rw [if_pos h6]
    by_cases h7 : (getEncryptionPassword cache cfg cred env pr).1 = []
    · rw [if_pos h7]
      exact Or.inl (by simp)
    rw [if_neg h7]
    by_cases h8 : fail.writeFail = true
    · rw [if_pos h8]
      exact Or.inl (by simp)
    rw [if_neg h8]
    by_cases h9 : fail.truncateFail = true
    · rw [if_pos h9]
      exact Or.inr ⟨data, _, _, rfl, h1, h2', Or.inl rfl⟩
    · rw [if_neg h9]
      exact Or.inr ⟨data, _, _, rfl, h1, h2', Or.inr rfl⟩
  · rw [if_neg h6]
    by_cases h8 : fail.writeFail = true
    · rw [if_pos h8]
      exact Or.inl (by simp)
    rw [if_neg h8]
    by_cases h9 : fail.truncateFail = true
    · rw [if_pos h9]
      exact Or.inr ⟨data, _, _, rfl, h1, h2', Or.inl rfl⟩
    · rw [if_neg h9]
      exact Or.inr ⟨data, _, _, rfl, h1, h2', Or.inr rfl⟩

theorem rotate_empty (cfg : Config) (today : Str) (path : Str) (cache cred env : Str)
    (pr : Option Str) (fail : FailSpec) (salt nonce : Bytes) (fs : FS)
    (hd : mget fs path = some []) :
    rotateLogFile cfg today path cache cred env pr fail salt nonce fs =
      ⟨fs, cache, Outcome.skippedEmpty, []⟩ := by
  simp only [rotateLogFile, hd]
  simp

theorem rotate_already (cfg : Config) (today : Str) (path : Str) (cache cred env : Str)
    (pr : Option Str) (fail : FailSpec) (salt nonce : Bytes) (fs : FS) (d : Bytes)
    (hd : mget fs path = some d) (hne : d ≠ [])
    (ha : (mget fs (archivePath cfg today path)).isSome = true) :
    rotateLogFile cfg today path cache cred env pr fail salt nonce fs =
      ⟨fs, cache, Outcome.alreadyRotated, []⟩ := by
  simp only [rotateLogFile, hd]
  rw [if_neg hne, if_pos ha]

/-- C4: in every per-file execution the source is modified only on the
fully successful path: whenever the outcome is not `rotated`, the source
file's content is unchanged (in particular after every failure up to and
including the archive write the whole filesystem is unchanged), and a
truncation effect occurs only in a trace where the archive write to the
ArchiveTarget precedes it and the written archive is present in the
resulting filesystem. -/
theorem truncate_only_after_write (cfg : Config) (today : Str) (path : Str)
    (cache cred env : Str) (pr : Option Str) (fail : FailSpec) (salt nonce : Bytes) (fs : FS) :
    ((rotateLogFile cfg today path cache cred env pr fail salt nonce fs).outcome ≠
        Outcome.rotated →
      mget (rotateLogFile cfg today path cache cred env pr fail salt nonce fs).fs path =
        mget fs path) ∧
    ((rotateLogFile cfg today path cache cred env pr fail salt nonce fs).outcome ≠
        Outcome.rotated →
      (rotateLogFile cfg today path cache cred env pr fail salt nonce fs).outcome ≠
        Outcome.errTruncate →
      (rotateLogFile cfg today path cache cred env pr fail salt nonce fs).fs = fs) ∧
    (Event.evTruncate path ∈
        (rotateLogFile cfg today path cache cred env pr fail salt nonce fs).events →
      ∃ fin, (rotateLogFile cfg today path cache cred env pr fail salt nonce fs).events =
          [Event.evRead path, Event.evWrite (archivePath cfg today path) fin,
           Event.evTruncate path] ∧
        mget (rotateLogFile cfg today path cache cred env pr fail salt nonce fs).fs
          (archivePath cfg today path) = some fin) := by
  rcases rotate_shape cfg today path cache cred env pr fail salt nonce fs with
    ⟨hfs, hev, hno, hnt⟩ | ⟨d, fin, c, hd, hdne, harch, hcase | hcase⟩
  · refine ⟨fun _ => by rw [hfs], fun _ _ => hfs, fun hmem => ?_⟩
    rcases hev with he | he <;> rw [he] at hmem <;> simp at hmem
  · have hpa : path ≠ archivePath cfg today path := by
      intro he
      rw [← he, hd] at harch
      exact Option.noConfusion harch
    refine ⟨fun _ => ?_, fun _ hcontra => ?_, fun hmem => ?_⟩
    · rw [hcase]
      exact mget_mset_ne fs (archivePath cfg today path) path fin hpa
    · rw [hcase] at hcontra
      exact absurd rfl hcontra
    · rw [hcase] at hmem
      simp at hmem
  · have hpa : path ≠ archivePath cfg today path := by
      intro he
      rw [← he, hd] at harch
      exact Option.noConfusion harch
    refine ⟨fun hcontra => ?_, fun hcontra _ => ?_, fun _ => ?_⟩
    · rw [hcase] at hcontra
      exact absurd rfl hcontra
    · rw [hcase] at hcontra
      exact absurd rfl hcontra
    · refine ⟨fin, by rw [hcase], ?_⟩
      rw [hcase]
      show mget (mset (mset fs (archivePath cfg today path) fin) path [])
        (archivePath cfg today path) = some fin
      rw [mget_mset_ne (mset fs (archivePath cfg today path) fin) path
        (archivePath cfg today path) [] (Ne.symm hpa)]
      exact mget_mset_self fs (archivePath cfg today path) fin

/-- C4 witness: a missing file leaves the filesystem untouched. -/
theorem truncate_only_after_write_witness :
    mget (rotateLogFile cfgPlain "t".data path0 [] [] [] none failNone [] [] []).fs path0 =
      mget ([] : FS) path0 :=
  (truncate_only_after_write cfgPlain "t".data path0 [] [] [] none failNone [] [] []).1
    (by decide)

/-- C10: if the archive write succeeded but the truncation failed, the
written archive is kept while the source still holds its full nonempty
content, and any later run with the same date-suffix and clock-day skips
the file with the already-rotated outcome, changing nothing — so the
source is never truncated by later runs. -/
theorem archive_kept_on_truncate_failure (cfg : Config) (today : Str) (path : Str)
    (cache cred env : Str) (pr : Option Str) (fail : FailSpec) (salt nonce : Bytes) (fs : FS) :
    (rotateLogFile cfg today path cache cred env pr fail salt nonce fs).outcome =
        Outcome.errTruncate →
    ∃ d fin,
      mget fs path = some d ∧ d ≠ [] ∧
      mget (rotateLogFile cfg today path cache cred env pr fail salt nonce fs).fs path =
        some d ∧
      mget (rotateLogFile cfg today path cache cred env pr fail salt nonce fs).fs
        (archivePath cfg today path) = some fin ∧
      ∀ cache2 cred2 env2 pr2 fail2 salt2 nonce2,
        rotateLogFile cfg today path cache2 cred2 env2 pr2 fail2 salt2 nonce2
            (rotateLogFile cfg today path cache cred env pr fail salt nonce fs).fs =
          ⟨(rotateLogFile cfg today path cache cred env pr fail salt nonce fs).fs, cache2,
           Outcome.alreadyRotated, []⟩ := by
  intro hout
  rcases rotate_shape cfg today path cache cred env pr fail salt nonce fs with
    ⟨hfs, hev, hno, hnt⟩ | ⟨d, fin, c, hd, hdne, harch, hcase | hcase⟩
  · exact absurd hout hnt
  · have hpa : path ≠ archivePath cfg today path := by
      intro he
      rw [← he, hd] at harch
      exact Option.noConfusion harch
    have hsrc : mget (rotateLogFile cfg today path cache cred env pr fail salt nonce fs).fs
        path = some d := by
      rw [hcase]
      show mget (mset fs (archivePath cfg today path) fin) path = some d
      rw [mget_mset_ne fs (archivePath cfg today path) path fin hpa]
      exact hd
    have harc : mget (rotateLogFile cfg today path cache cred env pr fail salt nonce fs).fs
        (archivePath cfg today path) = some fin := by
      rw [hcase]
      exact mget_mset_self fs (archivePath cfg today path) fin
    refine ⟨d, fin, hd, hdne, hsrc, harc, fun cache2 cred2 env2 pr2 fail2 salt2 nonce2 => ?_⟩
    exact rotate_already cfg today path cache2 cred2 env2 pr2 fail2 salt2 nonce2 _ d hsrc hdne
      (by rw [harc]; rfl)
  · rw [hcase] at hout
    exact absurd hout (by simp)

/-- C10 witness: a truncation failure at a concrete file, after which the
archive exists, the source is intact, and a rerun skips as already
rotated. -/
theorem archive_kept_on_truncate_failure_witness :
    ∃ d fin,
      mget fs0 path0 = some d ∧ d ≠ [] ∧
      mget (rotateLogFile cfgPlain "t".data path0 [] [] [] none failTrunc [] [] fs0).fs path0 =
        some d ∧
      mget (rotateLogFile cfgPlain "t".data path0 [] [] [] none failTrunc [] [] fs0).fs
        (archivePath cfgPlain "t".data path0) = some fin ∧
      ∀ cache2 cred2 env2 pr2 fail2 salt2 nonce2,
        rotateLogFile cfgPlain "t".data path0 cache2 cred2 env2 pr2 fail2 salt2 nonce2
            (rotateLogFile cfgPlain "t".data path0 [] [] [] none failTrunc [] [] fs0).fs =
          ⟨(rotateLogFile cfgPlain "t".data path0 [] [] [] none failTrunc [] [] fs0).fs, cache2,
           Outcome.alreadyRotated, []⟩ :=
  archive_kept_on_truncate_failure cfgPlain "t".data path0 [] [] [] none failTrunc [] [] fs0
    (by decide)

/-- C2 counterexample: rotating a concrete one-file directory twice with the
same clock-day makes the first run rotate the file, but the second run
reports it with the empty-file skip outcome — not the already-rotated
outcome the claim requires — because truncation emptied the source and the
empty-file check precedes the archive-existence check. -/
theorem second_run_reports_empty_not_already_cx :
    (rotateLogFile cfgPlain "t".data path0 [] [] [] none failNone [] [] fs0).outcome =
      Outcome.rotated ∧
    (rotateLogFile cfgPlain "t".data path0 [] [] [] none failNone [] []
        (rotateLogFile cfgPlain "t".data path0 [] [] [] none failNone [] [] fs0).fs).outcome =
      Outcome.skippedEmpty ∧
    (rotateLogFile cfgPlain "t".data path0 [] [] [] none failNone [] []
        (rotateLogFile cfgPlain "t".data path0 [] [] [] none failNone [] [] fs0).fs).outcome ≠
      Outcome.alreadyRotated := by
  decide

/-- C2 amended: re-rotating a file that a previous run rotated, with the
clock-day and date-suffix unchanged, performs no write and leaves the
filesystem (hence the archive set) identical; the outcome is the
empty-file skip (truncation emptied the source), and the already-rotated
outcome is reported exactly when the file has regained nonempty content. -/
theorem rotate_idempotent_amended (cfg : Config) (today : Str) (path : Str)
    (cache cred env : Str) (pr : Option Str) (fail : FailSpec) (salt nonce : Bytes) (fs : FS) :
    (rotateLogFile cfg today path cache cred env pr fail salt nonce fs).outcome =
        Outcome.rotated →
    (∀ cache2 cred2 env2 pr2 fail2 salt2 nonce2,
      rotateLogFile cfg today path cache2 cred2 env2 pr2 fail2 salt2 nonce2
          (rotateLogFile cfg today path cache cred env pr fail salt nonce fs).fs =
        ⟨(rotateLogFile cfg today path cache cred env pr fail salt nonce fs).fs, cache2,
         Outcome.skippedEmpty, []⟩) ∧
    (∀ d, d ≠ [] → ∀ cache2 cred2 env2 pr2 fail2 salt2 nonce2,
      rotateLogFile cfg today path cache2 cred2 env2 pr2 fail2 salt2 nonce2
          (mset (rotateLogFile cfg today path cache cred env pr fail salt nonce fs).fs path d) =
        ⟨mset (rotateLogFile cfg today path cache cred env pr fail salt nonce fs).fs path d,
         cache2, Outcome.alreadyRotated, []⟩) := by
  intro hout
  rcases rotate_shape cfg today path cache cred env pr fail salt nonce fs with
    ⟨hfs, hev, hno, hnt⟩ | ⟨d, fin, c, hd, hdne, harch, hcase | hcase⟩
  · exact absurd hout hno
  · rw [hcase] at hout
    exact absurd hout (by simp)
  · have hpa : path ≠ archivePath cfg today path := by
      intro he
      rw [← he, hd] at harch
      exact Option.noConfusion harch
    have hsrc : mget (rotateLogFile cfg today path cache cred env pr fail salt nonce fs).fs
        path = some [] := by
      rw [hcase]
      exact mget_mset_self (mset fs (archivePath cfg today path) fin) path []
    have harc : mget (rotateLogFile cfg today path cache cred env pr fail salt nonce fs).fs
        (archivePath cfg today path) = some fin := by
      rw [hcase]
      show mget (mset (mset fs (archivePath cfg today path) fin) path [])
        (archivePath cfg today path) = some fin
      rw [mget_mset_ne (mset fs (archivePath cfg today path) fin) path
        (archivePath cfg today path) [] (Ne.symm hpa)]
      exact mget_mset_self fs (archivePath cfg today path) fin
    constructor
    · intro cache2 cred2 env2 pr2 fail2 salt2 nonce2
      exact rotate_empty cfg today path cache2 cred2 env2 pr2 fail2 salt2 nonce2 _ hsrc
    · intro d2 hd2 cache2 cred2 env2 pr2 fail2 salt2 nonce2
      have hsrc2 : mget (mset (rotateLogFile cfg today path cache cred env pr fail salt nonce
          fs).fs path d2) path = some d2 :=
        mget_mset_self _ path d2
      have harc2 : mget (mset (rotateLogFile cfg today path cache cred env pr fail salt nonce
          fs).fs path d2) (archivePath cfg today path) = some fin := by
        rw [mget_mset_ne _ path (archivePath cfg today path) d2 (Ne.symm hpa)]
        exact harc
      exact rotate_already cfg today path cache2 cred2 env2 pr2 fail2 salt2 nonce2 _ d2 hsrc2
        hd2 (by rw [harc2]; rfl)

/-- C2 amended witness: the concrete second run of the counterexample
scenario is a no-op with the empty-file skip outcome. -/
theorem rotate_idempotent_amended_witness :
    rotateLogFile cfgPlain "t".data path0 [] [] [] none failNone [] []
        (rotateLogFile cfgPlain "t".data path0 [] [] [] none failNone [] [] fs0).fs =
      ⟨(rotateLogFile cfgPlain "t".data path0 [] [] [] none failNone [] [] fs0).fs, [],
       Outcome.skippedEmpty, []⟩ :=
  ((rotate_idempotent_amended cfgPlain "t".data path0 [] [] [] none failNone [] [] fs0)
    (by decide)).1 [] [] [] none failNone [] []

/-- C7 counterexample: with encryption enabled and only a hash configured
that no source can satisfy, no password is resolvable, yet the pre-run
validation does not fail (it only checks that password and hash are both
unconfigured) and the rotation proceeds to read the candidate file before
failing per-file — contradicting "fails fatally before any candidate file
is read". -/
theorem unresolvable_password_not_fatal_cx :
    encryptPrecheckFatal cfgHashOnly = false ∧
    (getEncryptionPassword [] cfgHashOnly [] [] none).1 = [] ∧
    (rotateLogFile cfgHashOnly "t".data path0 [] [] [] none failNone [] [] fs0).outcome =
      Outcome.errNoPassword ∧
    Event.evRead path0 ∈
      (rotateLogFile cfgHashOnly "t".data path0 [] [] [] none failNone [] [] fs0).events := by
  decide

/-- C7 amended: the run aborts before touching any file only when
encryption is enabled with neither a plaintext password nor a hash
configured; when a hash is configured but no source resolves a password,
the run proceeds and each file fails individually at its encryption step —
after being read, but with no write and no truncation, leaving the
filesystem unchanged. -/
theorem encrypt_precheck_amended (cfg : Config) (today : Str) (path cache cred env : Str)
    (pr : Option Str) (fail : FailSpec) (salt nonce : Bytes) (fs : FS) :
    (cfg.encrypt = true → cfg.encryptPassword = [] → cfg.encryptPassHash = [] →
      encryptPrecheckFatal cfg = true) ∧
    (cfg.encrypt = true → (getEncryptionPassword cache cfg cred env pr).1 = [] →
      (rotateLogFile cfg today path cache cred env pr fail salt nonce fs).fs = fs ∧
      (∀ p b, Event.evWrite p b ∉
        (rotateLogFile cfg today path cache cred env pr fail salt nonce fs).events) ∧
      (∀ p, Event.evTruncate p ∉
        (rotateLogFile cfg today path cache cred env pr fail salt nonce fs).events)) := by
  constructor
  · intro henc hpw hh
    simp [encryptPrecheckFatal, henc, hpw, hh]
  · intro henc hq
    rcases hd : mget fs path with - | data <;>
      simp only [rotateLogFile, finishRotate, hd]
    · exact ⟨by simp, by simp, by simp⟩
    by_cases h1 : data = []
    · rw [if_pos h1]
      exact ⟨by simp, by simp, by simp⟩
    rw [if_neg h1]
    by_cases h2 : (mget fs (archivePath cfg today path)).isSome = true
    · rw [if_pos h2]
      exact ⟨by simp, by simp, by simp⟩
    rw [if_neg h2]
    by_cases h3 : cfg.dryRun = true
    · rw [if_pos h3]
      exact ⟨by simp, by simp, by simp⟩
    rw [if_neg h3]
    by_cases h4 : fail.mkdirFail = true
    · rw [if_pos h4]
      exact ⟨by simp, by simp, by simp⟩
    rw [if_neg h4]
    by_cases h5 : fail.readFail = true
    · rw [if_pos h5]
      exact ⟨by simp, by simp, by simp⟩
    rw [if_neg h5]
    rw [if_pos henc, if_pos hq]
    exact ⟨by simp, by simp, by simp⟩

/-- C7 amended witness: the fatal precheck fires for the
nothing-configured config, and the hash-only no-password run leaves the
concrete filesystem unchanged. -/
theorem encrypt_precheck_amended_witness :
    encryptPrecheckFatal cfgNoHash = true ∧
    (rotateLogFile cfgHashOnly "t".data path0 [] [] [] none failNone [] [] fs0).fs = fs0 := by
  refine ⟨(encrypt_precheck_amended cfgNoHash "t".data path0 [] [] [] none failNone [] []
      fs0).1 (by decide) (by decide) (by decide), ?_⟩
  exact ((encrypt_precheck_amended cfgHashOnly "t".data path0 [] [] [] none failNone [] []
    fs0).2 (by decide) (by decide)).1

theorem mget_loadConfigLines (lines : List Str) (m : List (Str × Str)) (k : Str) :
    mget (loadConfigLines lines m) k =
      match lastDef lines k with
      | some v => some v
      | none => mget m k := by
  induction lines generalizing m with
  | nil => rfl
  | cons l ls ih =>
    simp only [loadConfigLines, lastDef]
    cases hp : parseConfigLine l with
    | none =>
      rw [ih]
      cases lastDef ls k <;> simp
    | some kv =>
      obtain ⟨k', v⟩ := kv
      rw [ih]
      cases lastDef ls k with
      | some w => simp
      | none =>
        by_cases hk : k' = k
        · subst hk
          simp [mget_mset_self]
        · simp [hk, mget_mset_ne m k' k v (Ne.symm hk)]

theorem loadConfigLines_append (a b : List Str) (m : List (Str × Str)) :
    loadConfigLines (a ++ b) m = loadConfigLines b (loadConfigLines a m) := by
  induction a generalizing m with
  | nil => rfl
  | cons l ls ih =>
    simp only [List.cons_append, loadConfigLines]
    exact ih _

theorem loadConfigFiles_eq_lines (mainLines : List Str) (dropins : List (List Str)) :
    loadConfigFiles mainLines dropins = loadConfigLines (mainLines ++ dropins.flatten) [] := by
  rw [loadConfigLines_append]
  show dropins.foldl (fun m f => loadConfigLines f m) (loadConfigLines mainLines []) = _
  generalize loadConfigLines mainLines [] = m
  induction dropins generalizing m with
  | nil => rfl
  | cons d ds ih =>
    simp only [List.foldl_cons, List.flatten_cons]
    rw [loadConfigLines_append]
    exact ih _

/-- C8 counterexample: the claim says a value written as `""x""` parses to
`"x"` (one layer of quotes stripped); `strings.Trim(value, "\"'")` strips
every leading and trailing quote character, so it parses to the bare `x`. -/
theorem config_value_quote_strip_cx :
    parseConfigLine "KEY = \"\"x\"\"".data = some ("KEY".data, "x".data) ∧
    parseConfigLine "KEY = \"\"x\"\"".data ≠ some ("KEY".data, "\"x\"".data) := by
  decide

/-- C8 amended: the main file and the sorted drop-in files merge as
`KEY = value` lines with a key set in a later file overriding the same key
from an earlier file (the merged lookup equals the last definition across
the concatenated files); blank lines and lines starting with `#` or `;`
are ignored; and each value is unquoted by stripping ALL surrounding quote
characters, so a value written as `""x""` — or as `"x"` — parses to the
bare `x`. -/
theorem config_merge_amended (mainLines : List Str) (dropins : List (List Str)) (k : Str)
    (l : Str) :
    mget (loadConfigFiles mainLines dropins) k = lastDef (mainLines ++ dropins.flatten) k ∧
    (trim l = [] ∨ (trim l).head? = some '#' ∨ (trim l).head? = some ';' →
      parseConfigLine l = none) ∧
    parseConfigLine "KEY = \"\"x\"\"".data = some ("KEY".data, "x".data) ∧
    parseConfigLine "KEY = \"x\"".data = some ("KEY".data, "x".data) := by
  refine ⟨?_, ?_, by decide, by decide⟩
  · rw [loadConfigFiles_eq_lines, mget_loadConfigLines]
    cases lastDef (mainLines ++ dropins.flatten) k <;> simp [mget]
  · intro h
    simp only [parseConfigLine]
    rcases h with h | h | h <;> split_ifs <;> simp_all

/-- C8 amended witness: a later drop-in overrides the main file, and the
merged lookup matches the last definition, at concrete files. -/
theorem config_merge_amended_witness :
    mget (loadConfigFiles ["A = 1".data] [["# c".data], ["A = 2".data]]) "A".data =
      lastDef ("A = 1".data :: [["# c".data], ["A = 2".data]].flatten) "A".data ∧
    mget (loadConfigFiles ["A = 1".data] [["# c".data], ["A = 2".data]]) "A".data =
      some "2".data ∧
    parseConfigLine "  ; note".data = none := by
  refine ⟨(config_merge_amended ["A = 1".data] [["# c".data], ["A = 2".data]] "A".data
    "  ; note".data).1, by decide, ?_⟩
  exact (config_merge_amended ["A = 1".data] [["# c".data], ["A = 2".data]] "A".data
    "  ; note".data).2.1 (Or.inr (Or.inr (by decide)))

theorem mem_insertBySize (e a : Str × Nat) (l : List (Str × Nat)) :
    a ∈ insertBySize e l ↔ a = e ∨ a ∈ l := by
  induction l with
  | nil => simp [insertBySize]
  | cons f fs ih =>
    simp only [insertBySize]
    split_ifs <;> (simp [ih]; try tauto)

theorem mem_sortBySize (a : Str × Nat) (l : List (Str × Nat)) :
    a ∈ sortBySize l ↔ a ∈ l := by
  induction l with
  | nil => simp [sortBySize]
  | cons f fs ih =>
    show a ∈ insertBySize f (sortBySize fs) ↔ _
    rw [mem_insertBySize]
    simp [ih]

/-- C9: a file whose full path or base name matches any exclusion pattern
never appears in the candidate list `findLogFiles` produces, even when its
base name matches the inclusion pattern. -/
theorem excluded_never_candidate (pattern : Str) (excludePatterns : List Str)
    (entries : List (Str × Nat)) (e : Str × Nat) (pat : Str)
    (hpat : pat ∈ excludePatterns)
    (hmatch : globMatch pat e.1 = true ∨ globMatch pat (baseName e.1) = true) :
    e ∉ findLogFiles pattern excludePatterns entries := by
  intro hmem
  rw [findLogFiles, mem_sortBySize] at hmem
  have hpred := List.of_mem_filter hmem
  have hex : excludedBy excludePatterns e.1 = true := by
    rw [excludedBy, List.any_eq_true]
    refine ⟨pat, hpat, ?_⟩
    rcases hmatch with h | h <;> simp [h]
  rw [Bool.and_eq_true, hex] at hpred
  simp at hpred

/-- C9 witness: a concrete file whose base name matches both the inclusion
pattern and an exclusion pattern is not a candidate. -/
theorem excluded_never_candidate_witness :
    ("/d/x.log".data, 5) ∉
      findLogFiles "*.log".data ["x.*".data] [("/d/x.log".data, 5)] :=
  excluded_never_candidate "*.log".data ["x.*".data] [("/d/x.log".data, 5)]
    ("/d/x.log".data, 5) "x.*".data (by decide) (Or.inr (by decide))

end GLR
